import Mathlib

/-!
Verification of a pairs-trading strategy (cointegration based) against its
natural-language specification.

The development shallowly embeds the two core modules:

* `pairs_strategy.py` — `PairsTradingStrategy`: parameter validation,
  series alignment, hedge estimation, spread, rolling z-score,
  and the signal state machine `generate_signals`;
* `back_test.py` — `Backtester`: construction, `run_backtest` and
  `calculate_performance_metrics`.

Floating-point values are modelled by exact rationals; the floating NaN
sentinel that pandas threads through `pct_change`, `shift`, `diff`,
`rolling` and `cumprod` is modelled by `Option` (with `none` for NaN),
and, where the code can produce infinities, by the `FVal` type below.
Python exceptions are modelled with `Except`.
-/

namespace PairsTrading

/-- Error raised by `PairsTradingStrategy._validate_parameters`
(a `ValueError` in the source). -/
inductive ConfigError where
  | entryNotAboveExit : ConfigError
  | lookbackTooShort : ConfigError
  deriving DecidableEq

/-- The immutable parameter record stored by `PairsTradingStrategy.__init__`. -/
structure StrategyConfig where
  lookback_period : ℤ
  entry_threshold : ℚ
  exit_threshold : ℚ
  deriving DecidableEq

/-- `PairsTradingStrategy._validate_parameters`: rejects
`entry_threshold <= exit_threshold`, then `lookback_period < 20`. -/
def validate_parameters (c : StrategyConfig) : Except ConfigError Unit :=
  if c.entry_threshold ≤ c.exit_threshold then
    Except.error ConfigError.entryNotAboveExit
  else if c.lookback_period < 20 then
    Except.error ConfigError.lookbackTooShort
  else
    Except.ok ()

/-- `PairsTradingStrategy.__init__`: stores the three parameters and then
calls `_validate_parameters`, so a validation error aborts construction. -/
def strategy_init (lookback : ℤ) (entry exit : ℚ) : Except ConfigError StrategyConfig :=
  let c : StrategyConfig := ⟨lookback, entry, exit⟩
  match validate_parameters c with
  | Except.error e => Except.error e
  | Except.ok _ => Except.ok c

/-- The parameter record stored by `Backtester.__init__`. -/
structure BacktesterConfig where
  initial_capital : ℚ
  transaction_cost : ℚ
  max_position_size : ℚ
  entry_threshold : ℚ
  exit_threshold : ℚ
  deriving DecidableEq

/-- `Backtester.__init__`: assigns the five fields and performs no
validation whatsoever, so it cannot fail. -/
def backtester_init (cap cost maxpos entry exit : ℚ) : Except ConfigError BacktesterConfig :=
  Except.ok ⟨cap, cost, maxpos, entry, exit⟩

/-! ## The signal state machine (`generate_signals`) -/

/-- One iteration of the loop body of `PairsTradingStrategy.generate_signals`:
`pos` is the carried `current_position`, the argument is the current z-score
(`none` models a NaN z-score, handled by the `pd.isna` branch). The result is
the post-transition position, which is also the emitted signal. -/
def signalStep (entry exit : ℚ) (pos : ℤ) : Option ℚ → ℤ
  | none => pos
  | some z =>
    if pos = 0 then
      if z > entry then -1
      else if z < -entry then 1
      else pos
    else if |z| < exit then 0
    else pos

/-- The loop of `generate_signals`, started from carried position `pos`. -/
def generateSignalsFrom (entry exit : ℚ) : ℤ → List (Option ℚ) → List ℤ
  | _, [] => []
  | pos, z :: zs =>
    let p := signalStep entry exit pos z
    p :: generateSignalsFrom entry exit p zs

/-- `PairsTradingStrategy.generate_signals`: the carried position starts at 0
(Flat) and each emitted signal is the post-transition position. -/
def generate_signals (entry exit : ℚ) (zs : List (Option ℚ)) : List ℤ :=
  generateSignalsFrom entry exit 0 zs

/-! ## Series alignment (`_align_series`) -/

/-- A timestamp-indexed price series; `none` models a NaN entry. -/
abbrev Series := List (ℤ × Option ℚ)

/-- Look up the row of a series at a timestamp. -/
def lookupT (s : Series) (t : ℤ) : Option (Option ℚ) :=
  (s.find? (fun r => r.1 = t)).map Prod.snd

/-- `PairsTradingStrategy._align_series` as implemented: the intersection of
the indices and the NaN-dropped frame are computed and then discarded — the
function returns the two ORIGINAL input series unchanged (the aligned return
statement is commented out in the source). -/
def align_series (prices_a prices_b : Series) : Series × Series :=
  (prices_a, prices_b)

/-- The alignment described by the specification (and by the commented-out
return of `_align_series`): restrict both series to the common timestamps and
drop every row in which either side is NaN. -/
def aligned_series_spec (prices_a prices_b : Series) : Series × Series :=
  let rows : List (ℤ × ℚ × ℚ) := prices_a.filterMap (fun r =>
    match r.2, lookupT prices_b r.1 with
    | some a, some (some b) => some (r.1, a, b)
    | _, _ => none)
  (rows.map (fun r => (r.1, some r.2.1)), rows.map (fun r => (r.1, some r.2.2)))

/-! ## The backtest (`run_backtest`) -/

/-- Tail of `Series.pct_change` after the first price `prev`. -/
def pct_change_from (prev : ℚ) : List ℚ → List (Option ℚ)
  | [] => []
  | p :: ps => some (p / prev - 1) :: pct_change_from p ps

/-- pandas `Series.pct_change()`: NaN at the first position, then
`p[t] / p[t-1] - 1`. -/
def pct_change : List ℚ → List (Option ℚ)
  | [] => []
  | p :: ps => none :: pct_change_from p ps

/-- The `dropna` of the joint frame `{signal, return_a, return_b}` built in
`run_backtest`: keep a row only when both returns are defined
(the signal column is always defined). -/
def align_rows (signals : List ℚ) (ras rbs : List (Option ℚ)) : List (ℚ × ℚ × ℚ) :=
  (signals.zip (ras.zip rbs)).filterMap (fun x =>
    match x with
    | (s, some ra, some rb) => some (s, ra, rb)
    | _ => none)

/-- Tail of pandas `shift(1)` when the previous element is `prev`. -/
def shift1_from (prev : ℚ) : List ℚ → List (Option ℚ)
  | [] => []
  | x :: xs => some prev :: shift1_from x xs

/-- pandas `Series.shift(1)`: NaN first, then each previous value. -/
def shift1 : List ℚ → List (Option ℚ)
  | [] => []
  | x :: xs => none :: shift1_from x xs

/-- Tail of pandas `diff()` when the previous element is `prev`. -/
def diff1_from (prev : ℚ) : List ℚ → List (Option ℚ)
  | [] => []
  | x :: xs => some (x - prev) :: diff1_from x xs

/-- pandas `Series.diff()`: NaN first, then each difference with the
previous value. -/
def diff1 : List ℚ → List (Option ℚ)
  | [] => []
  | x :: xs => none :: diff1_from x xs

/-- NaN-propagating multiplication of a possibly-NaN value by a number. -/
def omul (a : Option ℚ) (b : ℚ) : Option ℚ := a.map (fun v => v * b)

/-- NaN-propagating addition. -/
def oadd : Option ℚ → Option ℚ → Option ℚ
  | some a, some b => some (a + b)
  | _, _ => none

/-- NaN-propagating subtraction. -/
def osub : Option ℚ → Option ℚ → Option ℚ
  | some a, some b => some (a - b)
  | _, _ => none

/-- `aligned_data['signal'].diff().abs() * self.transaction_cost`. -/
def transaction_costs (sig : List ℚ) (rate : ℚ) : List (Option ℚ) :=
  (diff1 sig).map (fun d => d.map (fun v => |v| * rate))

/-- Continuation of pandas `cumprod()` with running product `acc`. -/
def cumprod_from (acc : ℚ) : List (Option ℚ) → List (Option ℚ)
  | [] => []
  | none :: xs => none :: cumprod_from acc xs
  | some x :: xs => some (acc * x) :: cumprod_from (acc * x) xs

/-- pandas `Series.cumprod()` with its default `skipna=True`: a NaN entry
stays NaN in place and the running product skips it. -/
def cumprod (xs : List (Option ℚ)) : List (Option ℚ) := cumprod_from 1 xs

/-- `trades = aligned_data['signal'].diff(); trade_dates = trades[trades != 0]`:
the positions of the aligned frame whose signal diff is nonzero. pandas
evaluates `NaN != 0` as true, so position 0 (whose diff is NaN) is always
included when the frame is nonempty. -/
def trade_dates (sig : List ℚ) : List ℕ :=
  (List.range sig.length).filter (fun i => (diff1 sig).getD i none ≠ some 0)

/-- The dictionary returned by `Backtester.run_backtest`. -/
structure BacktestResult where
  equity : List (Option ℚ)
  returns : List (Option ℚ)
  positions_a : List ℚ
  positions_b : List ℚ
  trades : List ℕ
  deriving DecidableEq

/-- `Backtester.run_backtest`, translated statement by statement: per-period
returns by `pct_change`, joint `dropna` alignment, dollar positions from the
signal, portfolio returns from the one-period-lagged (`shift(1)`) positions,
transaction costs from `diff().abs()`, and the equity curve
`initial_capital * (1 + portfolio_returns).cumprod()`. -/
def run_backtest (prices_a prices_b signals : List ℚ) (hedge : ℚ)
    (cfg : BacktesterConfig) : BacktestResult :=
  let returns_a := pct_change prices_a
  let returns_b := pct_change prices_b
  let rows := align_rows signals returns_a returns_b
  let sig := rows.map (fun r => r.1)
  let ra := rows.map (fun r => r.2.1)
  let rb := rows.map (fun r => r.2.2)
  let position_value := cfg.initial_capital * cfg.max_position_size
  let positions_a := sig.map (fun s => -s * position_value)
  let positions_b := sig.map (fun s => s * position_value * hedge)
  let gross := List.zipWith oadd
    (List.zipWith omul (shift1 positions_a) ra)
    (List.zipWith omul (shift1 positions_b) rb)
  let port0 := gross.map (fun x => x.map (fun v => v / cfg.initial_capital))
  let port := List.zipWith osub port0 (transaction_costs sig cfg.transaction_cost)
  let equity := (cumprod (port.map (fun r => r.map (fun v => 1 + v)))).map
    (fun x => x.map (fun v => cfg.initial_capital * v))
  { equity := equity, returns := port, positions_a := positions_a,
    positions_b := positions_b, trades := trade_dates sig }

/-! ## Real-valued model: z-score, hedge estimation, performance metrics

The z-score and several performance metrics involve a square root (and a real
power), so their values live in `ℝ`. `FVal` models an IEEE double: a finite
real, one of the two infinities, or NaN. The section is classical and its
definitions are noncomputable (they mention `Real.sqrt`). -/

section RealModel

open Classical

/-- An IEEE floating-point value in the exact-real idealisation: finite,
infinite, or NaN. -/
inductive FVal where
  | nan : FVal
  | posInf : FVal
  | negInf : FVal
  | fin : ℝ → FVal

/-- IEEE square root of a (rational-valued) float: NaN for negative
arguments, otherwise the real square root. -/
noncomputable def fsqrt (v : ℚ) : FVal :=
  if v < 0 then FVal.nan else FVal.fin (Real.sqrt (v : ℝ))

/-- IEEE division on `FVal`: `0/0` is NaN, `x/0` is a signed infinity for
`x ≠ 0`, finite otherwise; any NaN operand gives NaN. Infinite operands do
not occur in this development and are also sent to NaN. -/
noncomputable def fdiv (a b : FVal) : FVal :=
  match a, b with
  | FVal.fin x, FVal.fin y =>
    if y = 0 then
      (if x = 0 then FVal.nan else if 0 < x then FVal.posInf else FVal.negInf)
    else FVal.fin (x / y)
  | _, _ => FVal.nan

/-- The trailing window of (at most) `L` observations ending at and
including position `t`, as used by pandas `rolling(window=L)`. -/
def window (L : ℕ) (spread : List ℚ) (t : ℕ) : List ℚ :=
  (spread.take (t + 1)).drop (t + 1 - L)

/-- Mean of a window (pandas `rolling(...).mean()` on a full window). -/
def wmean (w : List ℚ) : ℚ := w.sum / (w.length : ℚ)

/-- Sample variance of a window with the `n-1` denominator, the square of
pandas `rolling(...).std()` on a full window. -/
def wvar (w : List ℚ) : ℚ :=
  ((w.map (fun x => (x - wmean w) ^ 2)).sum) / ((w.length - 1 : ℕ) : ℚ)

/-- `PairsTradingStrategy.calculate_zscore`:
`(spread - rolling_mean) / rolling_std` with window `L`. Positions before
the window is full are NaN (pandas emits NaN means/stds there, and NaN
propagates through the division); on a full window the value is the IEEE
quotient of the deviation by the sample standard deviation. -/
noncomputable def calculate_zscore (L : ℕ) (spread : List ℚ) : List FVal :=
  (List.range spread.length).map (fun t =>
    if t + 1 < L then FVal.nan
    else
      fdiv (FVal.fin ((spread.getD t 0 - wmean (window L spread t) : ℚ) : ℝ))
        (fsqrt (wvar (window L spread t))))

/-- `PairsTradingStrategy.calculate_hedge_ratio`: the slope of the ordinary
least-squares regression of B on A, as computed by `scipy.stats.linregress`
(`Σ(a-ā)(b-b̄) / Σ(a-ā)²`), in exact arithmetic. -/
def calculate_hedge (prices_a prices_b : List ℚ) : ℚ :=
  let abar := wmean prices_a
  let bbar := wmean prices_b
  (List.zipWith (fun a b => (a - abar) * (b - bbar)) prices_a prices_b).sum /
    ((prices_a.map (fun a => (a - abar) ^ 2)).sum)

/-- `PairsTradingStrategy.calculate_spread`: `prices_b - hedge * prices_a`
pointwise over the common index. -/
def calculate_spread (prices_a prices_b : List ℚ) (hedge : ℚ) : List ℚ :=
  List.zipWith (fun a b => b - hedge * a) prices_a prices_b

/-- The loop body of `generate_signals` on IEEE z-scores: NaN holds the
position; `+∞` compares above any entry threshold and `-∞` below any
negated one, and neither has absolute value below a (finite) exit
threshold. -/
noncomputable def signalStepF (entry exit : ℝ) (pos : ℤ) : FVal → ℤ
  | FVal.nan => pos
  | FVal.posInf => if pos = 0 then -1 else pos
  | FVal.negInf => if pos = 0 then 1 else pos
  | FVal.fin z =>
    if pos = 0 then
      if z > entry then -1
      else if z < -entry then 1
      else pos
    else if |z| < exit then 0
    else pos

/-- The loop of `generate_signals` over IEEE z-scores. -/
noncomputable def generateSignalsFromF (entry exit : ℝ) : ℤ → List FVal → List ℤ
  | _, [] => []
  | pos, z :: zs =>
    let p := signalStepF entry exit pos z
    p :: generateSignalsFromF entry exit p zs

/-- `generate_signals` over the IEEE z-scores produced by
`calculate_zscore`, starting Flat. -/
noncomputable def generate_signalsF (entry exit : ℝ) (zs : List FVal) : List ℤ :=
  generateSignalsFromF entry exit 0 zs

/-! ### Performance metrics (`calculate_performance_metrics`) -/

/-- The defined (non-NaN) entries of a return series, in order; pandas
reductions with their default `skipna=True` operate on exactly these. -/
def definedVals (rs : List (Option ℚ)) : List ℚ := rs.filterMap id

/-- `(1 + returns).prod() - 1` (the product skips NaN). -/
def total_return (rs : List (Option ℚ)) : ℚ :=
  ((definedVals rs).map (fun r => 1 + r)).prod - 1

/-- `(1 + total_return) ** (1 / n_years) - 1` with `n_years = len(returns)/252`.
An empty series divides by zero (a Python error, modelled NaN) and a negative
base under a fractional float power is NaN. -/
noncomputable def annual_return (rs : List (Option ℚ)) : FVal :=
  if rs.length = 0 then FVal.nan
  else if (1 + total_return rs : ℚ) < 0 then FVal.nan
  else FVal.fin (((1 + total_return rs : ℚ) : ℝ) ^ ((252 : ℝ) / rs.length) - 1)

/-- `returns.std() * np.sqrt(252)`: sample standard deviation of the defined
entries (NaN when fewer than two, as pandas returns with `ddof=1`). -/
noncomputable def annual_vol (rs : List (Option ℚ)) : FVal :=
  if (definedVals rs).length < 2 then FVal.nan
  else FVal.fin (Real.sqrt (wvar (definedVals rs)) * Real.sqrt 252)

/-- `annual_return / annual_vol if annual_vol != 0 else 0` (an NaN volatility
compares `!= 0` as true in Python, and the division then yields NaN). -/
noncomputable def sharpe (ar av : FVal) : FVal :=
  if av = FVal.fin 0 then FVal.fin 0 else fdiv ar av

/-- Tail of pandas `expanding().max()` with current maximum `best`; a NaN
entry emits the running maximum so far. -/
def running_max_from (best : ℚ) : List (Option ℚ) → List (Option ℚ)
  | [] => []
  | none :: xs => some best :: running_max_from best xs
  | some x :: xs => some (max best x) :: running_max_from (max best x) xs

/-- pandas `expanding().max()` (skipping NaN; NaN until the first defined
entry). -/
def running_max : List (Option ℚ) → List (Option ℚ)
  | [] => []
  | none :: xs => none :: running_max xs
  | some x :: xs => some x :: running_max_from x xs

/-- `drawdown.min()`: the minimum over the defined entries (NaN when none). -/
def omin (l : List (Option ℚ)) : Option ℚ := (l.filterMap id).min?

/-- `cumulative = (1+returns).cumprod(); running_max = cumulative.expanding().max();
((cumulative - running_max) / running_max).min()`. -/
def max_drawdown (rs : List (Option ℚ)) : Option ℚ :=
  let c := cumprod (rs.map (fun r => r.map (fun v => 1 + v)))
  let m := running_max c
  omin (List.zipWith (fun ci mi =>
    match ci, mi with
    | some a, some b => some ((a - b) / b)
    | _, _ => none) c m)

/-- `(returns > 0).sum() / len(returns)` (`NaN > 0` is false; an empty
series gives a NaN ratio). -/
def win_rate (rs : List (Option ℚ)) : Option ℚ :=
  if rs.length = 0 then none
  else some (((definedVals rs).countP (fun r => decide (0 < r)) : ℚ) / (rs.length : ℚ))

/-- `returns[returns > 0].sum() / abs(returns[returns < 0].sum())`, and
`np.inf` when there are no negative returns. -/
noncomputable def profit_factor (rs : List (Option ℚ)) : FVal :=
  let gross_profit := ((definedVals rs).filter (fun r => decide (0 < r))).sum
  let gross_loss := |((definedVals rs).filter (fun r => decide (r < 0))).sum|
  if gross_loss = 0 then FVal.posInf
  else FVal.fin ((gross_profit / gross_loss : ℚ) : ℝ)

/-- `annual_return / abs(max_drawdown) if max_drawdown != 0 else 0`
(a NaN drawdown compares `!= 0` as true and then yields NaN). -/
noncomputable def calmar (ar : FVal) (dd : Option ℚ) : FVal :=
  match dd with
  | none => FVal.nan
  | some d => if d = 0 then FVal.fin 0 else fdiv ar (FVal.fin ((|d| : ℚ) : ℝ))

/-- The record returned by `Backtester.calculate_performance_metrics`. -/
structure PerformanceMetrics where
  totalReturn : ℚ
  annualReturn : FVal
  annualVol : FVal
  sharpeVal : FVal
  maxDrawdown : Option ℚ
  winRate : Option ℚ
  profitFactor : FVal
  calmarVal : FVal

/-- `Backtester.calculate_performance_metrics` assembled from the
definitions above. -/
noncomputable def calculate_performance_metrics (rs : List (Option ℚ)) : PerformanceMetrics :=
  { totalReturn := total_return rs
    annualReturn := annual_return rs
    annualVol := annual_vol rs
    sharpeVal := sharpe (annual_return rs) (annual_vol rs)
    maxDrawdown := max_drawdown rs
    winRate := win_rate rs
    profitFactor := profit_factor rs
    calmarVal := calmar (annual_return rs) (max_drawdown rs) }

/-! ### The full pipeline -/

/-- All artifacts of one full run, as sequenced in `example.py`:
hedge estimation, spread, z-score, signals, backtest, metrics. -/
structure PipelineResult where
  hedge : ℚ
  spread : List ℚ
  zscore : List FVal
  signals : List ℤ
  backtest : BacktestResult
  metrics : PerformanceMetrics

/-- The full pipeline over a pair of price series on a common index:
`calculate_hedge_ratio`, `calculate_spread`, `calculate_zscore`,
`generate_signals`, `run_backtest`, `calculate_performance_metrics`. -/
noncomputable def run_pipeline (prices_a prices_b : List ℚ)
    (scfg : StrategyConfig) (bcfg : BacktesterConfig) : PipelineResult :=
  let hd := calculate_hedge prices_a prices_b
  let sp := calculate_spread prices_a prices_b hd
  let zs := calculate_zscore scfg.lookback_period.toNat sp
  let sigs := generate_signalsF (scfg.entry_threshold : ℝ) (scfg.exit_threshold : ℝ) zs
  let bt := run_backtest prices_a prices_b (sigs.map (fun s => (s : ℚ))) hd bcfg
  { hedge := hd, spread := sp, zscore := zs, signals := sigs,
    backtest := bt, metrics := calculate_performance_metrics bt.returns }

end RealModel

/-! ## General list lemmas -/

theorem scanl_head_cons (f : ℤ → Option ℚ → ℤ) (q : ℤ) (zs : List (Option ℚ)) :
    List.scanl f q zs = q :: (List.scanl f q zs).tail := by
  cases zs <;> simp [List.scanl]

theorem generateSignalsFrom_eq_scanl_tail (entry exit : ℚ) (pos : ℤ)
    (zs : List (Option ℚ)) :
    generateSignalsFrom entry exit pos zs =
      (List.scanl (signalStep entry exit) pos zs).tail := by
  induction zs generalizing pos with
  | nil => simp [generateSignalsFrom, List.scanl]
  | cons z zs ih =>
    show signalStep entry exit pos z ::
        generateSignalsFrom entry exit (signalStep entry exit pos z) zs
      = (List.scanl (signalStep entry exit) pos (z :: zs)).tail
    rw [List.scanl, List.tail_cons, ih]
    exact (scanl_head_cons _ _ _).symm

/-! ## C1: the signal generator state machine -/

/-- C1: `generate_signals` is the left fold (scan) of `signalStep` over the
z-score sequence starting Flat (0), emitting the post-transition state at
each timestamp; a NaN z-score leaves the carried position unchanged; from
Flat, `z > entry` moves to Short (−1) and `z < −entry` to Long (+1),
otherwise Flat persists; from a position, `|z| < exit` moves to Flat and
otherwise the position persists; all comparisons are strict, so a z-score
exactly at a threshold triggers no transition; and on the spec's concrete
example (entry 2, exit 0.5) the signal sequence is `[0,0,-1,-1,0,1,0]`. -/
theorem generate_signals_spec (entry exit z : ℚ) (pos : ℤ) (zs : List (Option ℚ)) :
    generate_signals entry exit zs = (zs.scanl (signalStep entry exit) 0).tail
    ∧ signalStep entry exit pos none = pos
    ∧ (entry < z → signalStep entry exit 0 (some z) = -1)
    ∧ (0 ≤ entry → z < -entry → signalStep entry exit 0 (some z) = 1)
    ∧ (-entry ≤ z → z ≤ entry → signalStep entry exit 0 (some z) = 0)
    ∧ (pos ≠ 0 → |z| < exit → signalStep entry exit pos (some z) = 0)
    ∧ (pos ≠ 0 → exit ≤ |z| → signalStep entry exit pos (some z) = pos)
    ∧ (0 ≤ entry → signalStep entry exit 0 (some entry) = 0)
    ∧ (0 ≤ entry → signalStep entry exit 0 (some (-entry)) = 0)
    ∧ (pos ≠ 0 → |z| = exit → signalStep entry exit pos (some z) = pos)
    ∧ generate_signals 2 (1/2)
        [none, none, some (5/2), some 1, some (3/10), some (-5/2), some (1/5)]
        = [0, 0, -1, -1, 0, 1, 0] := by
  refine ⟨generateSignalsFrom_eq_scanl_tail entry exit 0 zs, rfl, ?_, ?_, ?_, ?_, ?_, ?_, ?_, ?_,
    by norm_num [generate_signals, generateSignalsFrom, signalStep, abs]⟩
  · intro h
    simp [signalStep, h]
  · intro h0 h
    have h2 : ¬ entry < z := by
      intro hc
      nlinarith
    simp [signalStep, h, h2]
  · intro h1 h2
    simp [signalStep, not_lt.mpr h1, not_lt.mpr h2]
  · intro h1 h2
    simp [signalStep, h1, h2]
  · intro h1 h2
    simp [signalStep, h1, not_lt.mpr h2]
  · intro h
    simp [signalStep, lt_irrefl, not_lt.mpr (neg_le_self h)]
  · intro h
    have h1 : ¬ -entry < -entry := lt_irrefl _
    have h2 : ¬ entry < -entry := not_lt.mpr (neg_le_self h)
    simp [signalStep, h1, h2]
  · intro h1 h2
    simp [signalStep, h1, h2]

/-- Closed witness for `generate_signals_spec`: applied at entry 2,
exit 1/2, with all hypotheses discharged at concrete values. -/
theorem generate_signals_spec_witness :
    signalStep 2 (1/2) 1 none = 1
    ∧ signalStep 2 (1/2) 0 (some 3) = -1
    ∧ signalStep 2 (1/2) 0 (some (-3)) = 1
    ∧ signalStep 2 (1/2) 0 (some 1) = 0
    ∧ signalStep 2 (1/2) 1 (some 0) = 0
    ∧ signalStep 2 (1/2) 1 (some 1) = 1
    ∧ signalStep 2 (1/2) 0 (some 2) = 0
    ∧ signalStep 2 (1/2) 0 (some (-2)) = 0
    ∧ signalStep 2 (1/2) 1 (some (1/2)) = 1
    ∧ generate_signals 2 (1/2)
        [none, none, some (5/2), some 1, some (3/10), some (-5/2), some (1/5)]
        = [0, 0, -1, -1, 0, 1, 0] := by
  have h3 := generate_signals_spec 2 (1/2) 3 1 []
  have hm3 := generate_signals_spec 2 (1/2) (-3) 1 []
  have h1 := generate_signals_spec 2 (1/2) 1 1 []
  have h0 := generate_signals_spec 2 (1/2) 0 1 []
  have hhalf := generate_signals_spec 2 (1/2) (1/2) 1 []
  exact ⟨h3.2.1,
    h3.2.2.1 (by norm_num),
    hm3.2.2.2.1 (by norm_num) (by norm_num),
    h1.2.2.2.2.1 (by norm_num) (by norm_num),
    h0.2.2.2.2.2.1 (by norm_num) (by norm_num),
    h1.2.2.2.2.2.2.1 (by norm_num) (by norm_num),
    h3.2.2.2.2.2.2.2.1 (by norm_num),
    h3.2.2.2.2.2.2.2.2.1 (by norm_num),
    hhalf.2.2.2.2.2.2.2.2.2.1 (by norm_num) (by norm_num),
    h3.2.2.2.2.2.2.2.2.2.2⟩

/-! ## C6: strategy configuration validation -/

theorem strategy_init_eq (lookback : ℤ) (entry exit : ℚ) :
    strategy_init lookback entry exit =
      if entry ≤ exit then Except.error ConfigError.entryNotAboveExit
      else if lookback < 20 then Except.error ConfigError.lookbackTooShort
      else Except.ok ⟨lookback, entry, exit⟩ := by
  by_cases h1 : entry ≤ exit
  · simp [strategy_init, validate_parameters, h1]
  · by_cases h2 : lookback < 20
    · simp [strategy_init, validate_parameters, h1, h2]
    · simp [strategy_init, validate_parameters, h1, h2]

/-- C6: constructing the strategy fails at construction time exactly when
`entry_threshold ≤ exit_threshold` or `lookback_period < 20`; in particular
entry 0.5 / exit 2 is rejected and entry 2 / exit 0.5 is accepted. -/
theorem strategy_init_spec (lookback : ℤ) (entry exit : ℚ) :
    ((∃ c, strategy_init lookback entry exit = Except.ok c) ↔
      (exit < entry ∧ 20 ≤ lookback))
    ∧ strategy_init 60 (1/2) 2 = Except.error ConfigError.entryNotAboveExit
    ∧ strategy_init 60 2 (1/2) = Except.ok ⟨60, 2, 1/2⟩ := by
  refine ⟨?_, ?_, ?_⟩
  · rw [strategy_init_eq]
    split_ifs with h1 h2
    · constructor
      · rintro ⟨c, hc⟩
        exact absurd hc (by simp)
      · rintro ⟨hlt, -⟩
        exact absurd h1 (not_le.mpr hlt)
    · constructor
      · rintro ⟨c, hc⟩
        exact absurd hc (by simp)
      · rintro ⟨-, hle⟩
        exact absurd h2 (not_lt.mpr hle)
    · exact ⟨fun _ => ⟨not_le.mp h1, not_lt.mp h2⟩, fun _ => ⟨_, rfl⟩⟩
  · rw [strategy_init_eq]
    norm_num
  · rw [strategy_init_eq]
    norm_num

/-! ## C10: the backtester constructor performs no validation -/

/-- C10: `Backtester.__init__` never fails: it stores any parameter values
unchecked — including values violating every documented constraint
(non-positive capital, negative cost, out-of-range position size,
entry ≤ exit). -/
theorem backtester_init_spec (cap cost maxpos entry exit : ℚ) :
    backtester_init cap cost maxpos entry exit =
      Except.ok ⟨cap, cost, maxpos, entry, exit⟩
    ∧ backtester_init 0 (-1) 2 (1/2) 2 = Except.ok ⟨0, -1, 2, 1/2, 2⟩ :=
  ⟨rfl, rfl⟩

/-! ## C2: series alignment is a no-op in the code -/

/-- C2 (counterexample / bug witness): on overlapping-but-different indices,
`_align_series` returns the two original series unchanged, which differs from
the intersect-and-dropna alignment the docstring, the commented-out return
and the specification describe; the aligned result would keep only the
common timestamp. -/
theorem align_series_bug :
    align_series [(0, some 1), (1, some 2)] [(1, some 3), (2, some 4)]
      = ([(0, some 1), (1, some 2)], [(1, some 3), (2, some 4)])
    ∧ align_series [(0, some 1), (1, some 2)] [(1, some 3), (2, some 4)]
      ≠ aligned_series_spec [(0, some 1), (1, some 2)] [(1, some 3), (2, some 4)]
    ∧ aligned_series_spec [(0, some 1), (1, some 2)] [(1, some 3), (2, some 4)]
      = ([(1, some 2)], [(1, some 3)]) := by
  refine ⟨rfl, ?_, by decide⟩
  decide

/-! ## Index lemmas for the backtest pipeline -/

theorem getD_map_of_lt {α β : Type _} (f : α → β) (l : List α) (i : ℕ) (d : β) (d' : α)
    (h : i < l.length) : (l.map f).getD i d = f (l.getD i d') := by
  rw [List.getD_eq_getElem _ _ (by simpa using h), List.getD_eq_getElem _ _ h,
    List.getElem_map]

theorem getD_zipWith_of_lt {α β γ : Type _} (f : α → β → γ) (xs : List α) (ys : List β)
    (i : ℕ) (d : γ) (dx : α) (dy : β) (hx : i < xs.length) (hy : i < ys.length) :
    (List.zipWith f xs ys).getD i d = f (xs.getD i dx) (ys.getD i dy) := by
  rw [List.getD_eq_getElem _ _ (by simp [List.length_zipWith]; omega),
    List.getD_eq_getElem _ _ hx, List.getD_eq_getElem _ _ hy, List.getElem_zipWith]

theorem pct_change_from_length (prev : ℚ) (ps : List ℚ) :
    (pct_change_from prev ps).length = ps.length := by
  induction ps generalizing prev with
  | nil => rfl
  | cons p ps ih => simp [pct_change_from, ih]

theorem pct_change_length (ps : List ℚ) : (pct_change ps).length = ps.length := by
  cases ps with
  | nil => rfl
  | cons p ps => simp [pct_change, pct_change_from_length]

theorem shift1_from_length (prev : ℚ) (xs : List ℚ) :
    (shift1_from prev xs).length = xs.length := by
  induction xs generalizing prev with
  | nil => rfl
  | cons x xs ih => simp [shift1_from, ih]

theorem shift1_length (xs : List ℚ) : (shift1 xs).length = xs.length := by
  cases xs with
  | nil => rfl
  | cons x xs => simp [shift1, shift1_from_length]

theorem diff1_from_length (prev : ℚ) (xs : List ℚ) :
    (diff1_from prev xs).length = xs.length := by
  induction xs generalizing prev with
  | nil => rfl
  | cons x xs ih => simp [diff1_from, ih]

theorem diff1_length (xs : List ℚ) : (diff1 xs).length = xs.length := by
  cases xs with
  | nil => rfl
  | cons x xs => simp [diff1, diff1_from_length]

theorem shift1_from_getD (xs : List ℚ) (prev : ℚ) (i : ℕ) (h : i < xs.length) :
    (shift1_from prev xs).getD i none = some ((prev :: xs).getD i 0) := by
  induction xs generalizing prev i with
  | nil => simp at h
  | cons x xs ih =>
    cases i with
    | zero => rfl
    | succ j =>
      simp only [shift1_from, List.getD_cons_succ]
      exact ih x j (by simpa using h)

theorem shift1_getD_succ (xs : List ℚ) (i : ℕ) (h : i + 1 < xs.length) :
    (shift1 xs).getD (i + 1) none = some (xs.getD i 0) := by
  cases xs with
  | nil => simp at h
  | cons x xs =>
    simp only [shift1, List.getD_cons_succ]
    rw [shift1_from_getD xs x i (by simpa using h)]

theorem diff1_from_getD (xs : List ℚ) (prev : ℚ) (i : ℕ) (h : i < xs.length) :
    (diff1_from prev xs).getD i none =
      some ((prev :: xs).getD (i + 1) 0 - (prev :: xs).getD i 0) := by
  induction xs generalizing prev i with
  | nil => simp at h
  | cons x xs ih =>
    cases i with
    | zero => rfl
    | succ j =>
      simp only [diff1_from, List.getD_cons_succ]
      exact ih x j (by simpa using h)

theorem diff1_getD_succ (xs : List ℚ) (i : ℕ) (h : i + 1 < xs.length) :
    (diff1 xs).getD (i + 1) none = some (xs.getD (i + 1) 0 - xs.getD i 0) := by
  cases xs with
  | nil => simp at h
  | cons x xs =>
    simp only [diff1, List.getD_cons_succ]
    rw [diff1_from_getD xs x i (by simpa using h)]
    simp

theorem osub_none (x : Option ℚ) : osub x none = none := by
  cases x <;> rfl

/-- The `i`-th row of the aligned backtest frame (signal, return A, return B),
with a zero row out of range. -/
def alignedRow (pa pb sigs : List ℚ) (i : ℕ) : ℚ × ℚ × ℚ :=
  (align_rows sigs (pct_change pa) (pct_change pb)).getD i (0, 0, 0)

/-- Closed form of the portfolio return the backtest records at aligned
position `u + 1`: lagged positions times current returns over capital, minus
the signal-change transaction cost. -/
theorem run_backtest_returns_getD (pa pb sigs : List ℚ) (hedge : ℚ)
    (cfg : BacktesterConfig) (u : ℕ)
    (h : u + 1 < (align_rows sigs (pct_change pa) (pct_change pb)).length) :
    (run_backtest pa pb sigs hedge cfg).returns.getD (u + 1) none =
      some ((-(alignedRow pa pb sigs u).1 * (cfg.initial_capital * cfg.max_position_size)
            * (alignedRow pa pb sigs (u + 1)).2.1
          + (alignedRow pa pb sigs u).1 * (cfg.initial_capital * cfg.max_position_size)
            * hedge * (alignedRow pa pb sigs (u + 1)).2.2)
          / cfg.initial_capital
        - |(alignedRow pa pb sigs (u + 1)).1 - (alignedRow pa pb sigs u).1|
            * cfg.transaction_cost) := by
  simp only [run_backtest, alignedRow]
  set rows := align_rows sigs (pct_change pa) (pct_change pb) with hrows
  set pv := cfg.initial_capital * cfg.max_position_size with hpv
  set sig := rows.map (fun r => r.1) with hsig
  set ra := rows.map (fun r => r.2.1) with hra
  set rb := rows.map (fun r => r.2.2) with hrb
  set pA := sig.map (fun s => -s * pv) with hpA
  set pB := sig.map (fun s => s * pv * hedge) with hpB
  have hsl : sig.length = rows.length := List.length_map _ _
  have hral : ra.length = rows.length := List.length_map _ _
  have hrbl : rb.length = rows.length := List.length_map _ _
  have hpAl : pA.length = rows.length := by rw [hpA, List.length_map, hsl]
  have hpBl : pB.length = rows.length := by rw [hpB, List.length_map, hsl]
  have hz1 : u + 1 < (List.zipWith omul (shift1 pA) ra).length := by
    rw [List.length_zipWith, shift1_length, hpAl, hral, Nat.min_self]; exact h
  have hz2 : u + 1 < (List.zipWith omul (shift1 pB) rb).length := by
    rw [List.length_zipWith, shift1_length, hpBl, hrbl, Nat.min_self]; exact h
  have hgross : u + 1 <
      (List.zipWith oadd (List.zipWith omul (shift1 pA) ra)
        (List.zipWith omul (shift1 pB) rb)).length := by
    rw [List.length_zipWith, Nat.min_def]; split_ifs <;> [exact hz1; exact hz2]
  have hport0 : u + 1 <
      ((List.zipWith oadd (List.zipWith omul (shift1 pA) ra)
        (List.zipWith omul (shift1 pB) rb)).map
          (fun x => x.map (fun v => v / cfg.initial_capital))).length := by
    rw [List.length_map]; exact hgross
  have hcosts : u + 1 < (transaction_costs sig cfg.transaction_cost).length := by
    rw [transaction_costs, List.length_map, diff1_length, hsl]; exact h
  rw [getD_zipWith_of_lt osub _ _ (u + 1) none none none hport0 hcosts]
  rw [getD_map_of_lt _ _ (u + 1) none none hgross]
  rw [getD_zipWith_of_lt oadd _ _ (u + 1) none none none hz1 hz2]
  rw [getD_zipWith_of_lt omul _ _ (u + 1) none none 0
    (by rw [shift1_length, hpAl]; exact h) (by rw [hral]; exact h)]
  rw [getD_zipWith_of_lt omul _ _ (u + 1) none none 0
    (by rw [shift1_length, hpBl]; exact h) (by rw [hrbl]; exact h)]
  rw [shift1_getD_succ pA u (by rw [hpAl]; exact h)]
  rw [shift1_getD_succ pB u (by rw [hpBl]; exact h)]
  have hu : u < rows.length := Nat.lt_of_succ_lt h
  rw [hpA, getD_map_of_lt _ sig u 0 0 (by rw [hsl]; exact hu)]
  rw [hpB, getD_map_of_lt _ sig u 0 0 (by rw [hsl]; exact hu)]
  rw [hsig, getD_map_of_lt _ rows u 0 (0, 0, 0) hu]
  rw [hra, getD_map_of_lt _ rows (u + 1) 0 (0, 0, 0) h]
  rw [hrb, getD_map_of_lt _ rows (u + 1) 0 (0, 0, 0) h]
  rw [transaction_costs, getD_map_of_lt _ (diff1 sig) (u + 1) none none
    (by rw [diff1_length, hsl]; exact h)]
  rw [diff1_getD_succ sig u (by rw [hsl]; exact h)]
  rw [hsig, getD_map_of_lt _ rows (u + 1) 0 (0, 0, 0) h,
    getD_map_of_lt _ rows u 0 (0, 0, 0) hu]
  simp only [omul, oadd, osub, Option.map_some']

/-- Closed form of the transaction-cost series at aligned position `u + 1`. -/
theorem transaction_costs_getD (sig : List ℚ) (rate : ℚ) (u : ℕ)
    (h : u + 1 < sig.length) :
    (transaction_costs sig rate).getD (u + 1) none =
      some (|sig.getD (u + 1) 0 - sig.getD u 0| * rate) := by
  rw [transaction_costs,
    getD_map_of_lt _ (diff1 sig) (u + 1) none none (by rw [diff1_length]; exact h),
    diff1_getD_succ sig u h]
  simp

/-- Closed form of the two per-leg dollar position series. -/
theorem run_backtest_positions_getD (pa pb sigs : List ℚ) (hedge : ℚ)
    (cfg : BacktesterConfig) (t : ℕ)
    (ht : t < (align_rows sigs (pct_change pa) (pct_change pb)).length) :
    (run_backtest pa pb sigs hedge cfg).positions_a.getD t 0 =
      -(alignedRow pa pb sigs t).1 * (cfg.initial_capital * cfg.max_position_size)
    ∧ (run_backtest pa pb sigs hedge cfg).positions_b.getD t 0 =
      (alignedRow pa pb sigs t).1 * (cfg.initial_capital * cfg.max_position_size)
        * hedge := by
  simp only [run_backtest, alignedRow]
  set rows := align_rows sigs (pct_change pa) (pct_change pb) with hrows
  have hsl : (rows.map (fun r => r.1)).length = rows.length := List.length_map _ _
  constructor
  · rw [getD_map_of_lt _ _ t 0 0 (by rw [hsl]; exact ht),
      getD_map_of_lt _ rows t 0 (0, 0, 0) ht]
  · rw [getD_map_of_lt _ _ t 0 0 (by rw [hsl]; exact ht),
      getD_map_of_lt _ rows t 0 (0, 0, 0) ht]

/-- C3: in the backtest, the portfolio return at aligned period `t ≥ 1` is
the previous period's dollar positions times the current per-leg returns,
divided by initial capital, minus `|signal[t] − signal[t−1]|` times the
transaction-cost rate; the per-leg positions are
`positionA[t] = −signal[t]·capital·max_position_size` and
`positionB[t] = signal[t]·capital·max_position_size·hedge_ratio`; and a full
Long→Short flip is charged `2·rate` while a Flat→Long entry is charged
`rate`. -/
theorem run_backtest_return_formula (pa pb sigs : List ℚ) (hedge : ℚ)
    (cfg : BacktesterConfig) (t : ℕ) (ht : 1 ≤ t)
    (ht2 : t < (align_rows sigs (pct_change pa) (pct_change pb)).length) :
    (run_backtest pa pb sigs hedge cfg).returns.getD t none =
      some ((-(alignedRow pa pb sigs (t - 1)).1
              * (cfg.initial_capital * cfg.max_position_size)
              * (alignedRow pa pb sigs t).2.1
          + (alignedRow pa pb sigs (t - 1)).1
              * (cfg.initial_capital * cfg.max_position_size)
              * hedge * (alignedRow pa pb sigs t).2.2)
          / cfg.initial_capital
        - |(alignedRow pa pb sigs t).1 - (alignedRow pa pb sigs (t - 1)).1|
            * cfg.transaction_cost)
    ∧ (run_backtest pa pb sigs hedge cfg).positions_a.getD t 0 =
        -(alignedRow pa pb sigs t).1 * (cfg.initial_capital * cfg.max_position_size)
    ∧ (run_backtest pa pb sigs hedge cfg).positions_b.getD t 0 =
        (alignedRow pa pb sigs t).1 * (cfg.initial_capital * cfg.max_position_size)
          * hedge
    ∧ ((alignedRow pa pb sigs (t - 1)).1 = 1 → (alignedRow pa pb sigs t).1 = -1 →
        (transaction_costs
          ((align_rows sigs (pct_change pa) (pct_change pb)).map (fun r => r.1))
          cfg.transaction_cost).getD t none = some (2 * cfg.transaction_cost))
    ∧ ((alignedRow pa pb sigs (t - 1)).1 = 0 → (alignedRow pa pb sigs t).1 = 1 →
        (transaction_costs
          ((align_rows sigs (pct_change pa) (pct_change pb)).map (fun r => r.1))
          cfg.transaction_cost).getD t none = some (cfg.transaction_cost)) := by
  obtain ⟨u, rfl⟩ : ∃ u, t = u + 1 := ⟨t - 1, by omega⟩
  simp only [Nat.add_sub_cancel]
  have hsig : ∀ i, i < (align_rows sigs (pct_change pa) (pct_change pb)).length →
      ((align_rows sigs (pct_change pa) (pct_change pb)).map (fun r => r.1)).getD i 0 =
        (alignedRow pa pb sigs i).1 := by
    intro i hi
    rw [alignedRow, getD_map_of_lt _ _ i 0 (0, 0, 0) hi]
  have hclen : u + 1 <
      ((align_rows sigs (pct_change pa) (pct_change pb)).map (fun r => r.1)).length := by
    rw [List.length_map]; exact ht2
  refine ⟨run_backtest_returns_getD pa pb sigs hedge cfg u ht2,
    (run_backtest_positions_getD pa pb sigs hedge cfg (u + 1) ht2).1,
    (run_backtest_positions_getD pa pb sigs hedge cfg (u + 1) ht2).2, ?_, ?_⟩
  · intro h1 h2
    rw [transaction_costs_getD _ _ u hclen, hsig (u + 1) ht2,
      hsig u (Nat.lt_of_succ_lt ht2), h1, h2]
    norm_num
  · intro h1 h2
    rw [transaction_costs_getD _ _ u hclen, hsig (u + 1) ht2,
      hsig u (Nat.lt_of_succ_lt ht2), h1, h2]
    norm_num

/-- Closed witness for `run_backtest_return_formula`: two aligned periods
with a Long→Short flip at period 1; the return is −50/100 minus the doubled
transaction cost 2/100, i.e. −13/25, and the flip is charged 1/50 = 2·rate. -/
theorem run_backtest_return_formula_witness :
    (run_backtest [1, 2, 4] [1, 3, 3] [0, 1, -1] 2
        ⟨100, 1/100, 1/2, 2, 1/2⟩).returns.getD 1 none = some (-(13/25))
    ∧ (run_backtest [1, 2, 4] [1, 3, 3] [0, 1, -1] 2
        ⟨100, 1/100, 1/2, 2, 1/2⟩).positions_a.getD 1 0 = 50
    ∧ (run_backtest [1, 2, 4] [1, 3, 3] [0, 1, -1] 2
        ⟨100, 1/100, 1/2, 2, 1/2⟩).positions_b.getD 1 0 = -100
    ∧ (transaction_costs
        ((align_rows [0, 1, -1] (pct_change [1, 2, 4]) (pct_change [1, 3, 3])).map
          (fun r => r.1)) (1/100)).getD 1 none = some (1/50) := by
  have hrows : align_rows [0, 1, -1] (pct_change [1, 2, 4]) (pct_change [1, 3, 3])
      = [(1, 1, 2), (-1, 1, 0)] := by
    norm_num [align_rows, pct_change, pct_change_from]
    decide
  have hb : 1 < (align_rows [0, 1, -1] (pct_change [1, 2, 4])
      (pct_change [1, 3, 3])).length := by
    rw [hrows]; norm_num
  have h := run_backtest_return_formula [1, 2, 4] [1, 3, 3] [0, 1, -1] 2
    ⟨100, 1/100, 1/2, 2, 1/2⟩ 1 (by norm_num) hb
  have h0 : alignedRow [1, 2, 4] [1, 3, 3] [0, 1, -1] 0 = (1, 1, 2) := by
    simp [alignedRow, hrows]
  have h1 : alignedRow [1, 2, 4] [1, 3, 3] [0, 1, -1] 1 = (-1, 1, 0) := by
    simp [alignedRow, hrows]
  refine ⟨?_, ?_, ?_, ?_⟩
  · have he := h.1
    simp only [Nat.sub_self, h0, h1] at he
    rw [he]
    norm_num
  · have he := h.2.1
    simp only [h1] at he
    rw [he]
    norm_num
  · have he := h.2.2.1
    simp only [h1] at he
    rw [he]
    norm_num
  · have he := h.2.2.2.1 (by simp [Nat.sub_self, h0]) (by simp [h1])
    rw [he]
    norm_num

/-! ## C4: the equity curve -/

theorem cumprod_from_length (acc : ℚ) (xs : List (Option ℚ)) :
    (cumprod_from acc xs).length = xs.length := by
  induction xs generalizing acc with
  | nil => rfl
  | cons x xs ih => cases x <;> simp [cumprod_from, ih]

theorem cumprod_from_getD (xs : List (Option ℚ)) (acc : ℚ) (i : ℕ)
    (h : i < xs.length) :
    (cumprod_from acc xs).getD i none =
      (xs.getD i none).map
        (fun _ => acc * ((xs.take (i + 1)).filterMap id).prod) := by
  induction xs generalizing acc i with
  | nil => simp at h
  | cons x xs ih =>
    cases x with
    | none =>
      cases i with
      | zero => simp [cumprod_from]
      | succ j =>
        simp only [cumprod_from, List.getD_cons_succ, List.take_succ_cons,
          List.filterMap_cons]
        exact ih acc j (by simpa using h)
    | some v =>
      cases i with
      | zero => simp [cumprod_from]
      | succ j =>
        simp only [cumprod_from, List.getD_cons_succ, List.take_succ_cons,
          List.filterMap_cons]
        rw [ih (acc * v) j (by simpa using h)]
        cases hxj : xs.getD j none with
        | none => simp
        | some w =>
          simp only [Option.map_some', Option.some.injEq, id]
          rw [List.prod_cons]
          ring

theorem filterMap_id_map_optionMap (f : ℚ → ℚ) (l : List (Option ℚ)) :
    (l.map (Option.map f)).filterMap id = (l.filterMap id).map f := by
  induction l with
  | nil => rfl
  | cons x xs ih => cases x <;> simp [ih]

theorem run_backtest_equity_eq (pa pb sigs : List ℚ) (hedge : ℚ)
    (cfg : BacktesterConfig) :
    (run_backtest pa pb sigs hedge cfg).equity =
      (cumprod ((run_backtest pa pb sigs hedge cfg).returns.map
        (fun r => r.map (fun v => 1 + v)))).map
        (fun x => x.map (fun v => cfg.initial_capital * v)) := rfl

theorem run_backtest_returns_length (pa pb sigs : List ℚ) (hedge : ℚ)
    (cfg : BacktesterConfig) :
    (run_backtest pa pb sigs hedge cfg).returns.length =
      (align_rows sigs (pct_change pa) (pct_change pb)).length := by
  simp only [run_backtest]
  simp [List.length_zipWith, List.length_map, shift1_length,
    transaction_costs, diff1_length, min_self]

theorem zipWith_osub_getD_zero_of_right_none (xs ys : List (Option ℚ))
    (hy : ys.getD 0 none = none) :
    (List.zipWith osub xs ys).getD 0 none = none := by
  cases xs with
  | nil => rfl
  | cons x xs =>
    cases ys with
    | nil => rfl
    | cons y ys =>
      simp only [List.getD_cons_zero] at hy
      simp only [List.zipWith_cons_cons, List.getD_cons_zero, hy]
      exact osub_none x

theorem transaction_costs_getD_zero (sig : List ℚ) (rate : ℚ) :
    (transaction_costs sig rate).getD 0 none = none := by
  cases sig <;> simp [transaction_costs, diff1]

theorem run_backtest_returns_getD_zero (pa pb sigs : List ℚ) (hedge : ℚ)
    (cfg : BacktesterConfig) :
    (run_backtest pa pb sigs hedge cfg).returns.getD 0 none = none := by
  simp only [run_backtest]
  exact zipWith_osub_getD_zero_of_right_none _ _ (transaction_costs_getD_zero _ _)

/-- C4 (counterexample to the claim as stated): on a concrete input the
returned equity curve has the same length as the return series (not one
more), and its first element is NaN, not `initial_capital`. -/
theorem run_backtest_equity_counterexample :
    ¬ ((run_backtest [1, 2] [1, 2] [0, 1] 1
          ⟨100, 1/100, 1/2, 2, 1/2⟩).equity.length =
        (run_backtest [1, 2] [1, 2] [0, 1] 1
          ⟨100, 1/100, 1/2, 2, 1/2⟩).returns.length + 1
      ∧ (run_backtest [1, 2] [1, 2] [0, 1] 1
          ⟨100, 1/100, 1/2, 2, 1/2⟩).equity.getD 0 none = some 100) := by
  have heq : (run_backtest [1, 2] [1, 2] [0, 1] 1
      ⟨100, 1/100, 1/2, 2, 1/2⟩).equity = [none] := by
    norm_num [run_backtest, align_rows, pct_change, pct_change_from, shift1,
      shift1_from, diff1, diff1_from, omul, oadd, osub, transaction_costs,
      cumprod, cumprod_from, trade_dates]
  rintro ⟨-, hB⟩
  rw [heq] at hB
  simp at hB

/-- Closed form of the equity curve entry at aligned position `i`: NaN when
the portfolio return there is NaN, otherwise `initial_capital` times the
product of `1 + r` over the defined returns up to and including `i`. -/
theorem run_backtest_equity_getD (pa pb sigs : List ℚ) (hedge : ℚ)
    (cfg : BacktesterConfig) (i : ℕ)
    (hi : i < (run_backtest pa pb sigs hedge cfg).returns.length) :
    (run_backtest pa pb sigs hedge cfg).equity.getD i none =
      ((run_backtest pa pb sigs hedge cfg).returns.getD i none).map
        (fun _ => cfg.initial_capital *
          ((((run_backtest pa pb sigs hedge cfg).returns.take (i + 1)).filterMap
            id).map (fun r => 1 + r)).prod) := by
  have hmaplen : i < ((run_backtest pa pb sigs hedge cfg).returns.map
      (fun r => r.map (fun v => 1 + v))).length := by
    rw [List.length_map]; exact hi
  rw [run_backtest_equity_eq,
    getD_map_of_lt _ _ i none none
      (by rw [cumprod, cumprod_from_length]; exact hmaplen),
    cumprod, cumprod_from_getD _ 1 i hmaplen,
    getD_map_of_lt _ _ i none none hi,
    ← List.map_take, filterMap_id_map_optionMap]
  cases (run_backtest pa pb sigs hedge cfg).returns.getD i none with
  | none => rfl
  | some r => simp

theorem run_backtest_equity_length (pa pb sigs : List ℚ) (hedge : ℚ)
    (cfg : BacktesterConfig) :
    (run_backtest pa pb sigs hedge cfg).equity.length =
      (run_backtest pa pb sigs hedge cfg).returns.length := by
  rw [run_backtest_equity_eq, List.length_map, cumprod, cumprod_from_length,
    List.length_map]

/-- C4 (amended): the equity curve has the SAME length as the per-period
return series; its first entry is NaN (undefined), not `initial_capital`;
and at every position whose portfolio return is defined it equals
`initial_capital` times the cumulative product of `1 + r` over the defined
returns up to and including that position (the skipna cumulative product of
the code). -/
theorem run_backtest_equity_spec (pa pb sigs : List ℚ) (hedge : ℚ)
    (cfg : BacktesterConfig) (t : ℕ)
    (h0 : 0 < (run_backtest pa pb sigs hedge cfg).returns.length)
    (ht : t < (run_backtest pa pb sigs hedge cfg).returns.length) :
    (run_backtest pa pb sigs hedge cfg).equity.length =
      (run_backtest pa pb sigs hedge cfg).returns.length
    ∧ (run_backtest pa pb sigs hedge cfg).equity.getD 0 none = none
    ∧ ((run_backtest pa pb sigs hedge cfg).returns.getD t none ≠ none →
        (run_backtest pa pb sigs hedge cfg).equity.getD t none =
          some (cfg.initial_capital *
            ((((run_backtest pa pb sigs hedge cfg).returns.take (t + 1)).filterMap
              id).map (fun r => 1 + r)).prod)) := by
  refine ⟨run_backtest_equity_length pa pb sigs hedge cfg, ?_, ?_⟩
  · rw [run_backtest_equity_getD pa pb sigs hedge cfg 0 h0,
      run_backtest_returns_getD_zero pa pb sigs hedge cfg]
    rfl
  · intro hdef
    rw [run_backtest_equity_getD pa pb sigs hedge cfg t ht]
    cases hr : (run_backtest pa pb sigs hedge cfg).returns.getD t none with
    | none => exact absurd hr hdef
    | some r => rfl

/-- Closed witness for `run_backtest_equity_spec`: a two-period backtest in
which the equity curve has length 2 (= the return series length), starts NaN,
and equals 100·(1 − 1/2) = 50 at the defined period. -/
theorem run_backtest_equity_spec_witness :
    (run_backtest [1, 2, 4] [1, 3, 3] [1, 1, 1] 2
        ⟨100, 1/100, 1/2, 2, 1/2⟩).equity.length =
      (run_backtest [1, 2, 4] [1, 3, 3] [1, 1, 1] 2
        ⟨100, 1/100, 1/2, 2, 1/2⟩).returns.length
    ∧ (run_backtest [1, 2, 4] [1, 3, 3] [1, 1, 1] 2
        ⟨100, 1/100, 1/2, 2, 1/2⟩).equity.getD 0 none = none
    ∧ (run_backtest [1, 2, 4] [1, 3, 3] [1, 1, 1] 2
        ⟨100, 1/100, 1/2, 2, 1/2⟩).equity.getD 1 none = some 50 := by
  have hrows : align_rows [1, 1, 1] (pct_change [1, 2, 4]) (pct_change [1, 3, 3])
      = [(1, 1, 2), (1, 1, 0)] := by
    norm_num [align_rows, pct_change, pct_change_from]
    decide
  have hr : (run_backtest [1, 2, 4] [1, 3, 3] [1, 1, 1] 2
      ⟨100, 1/100, 1/2, 2, 1/2⟩).returns = [none, some (-(1/2))] := by
    simp only [run_backtest, hrows]
    norm_num [shift1, shift1_from, diff1, diff1_from, omul, oadd, osub,
      transaction_costs]
  have h0 : 0 < (run_backtest [1, 2, 4] [1, 3, 3] [1, 1, 1] 2
      ⟨100, 1/100, 1/2, 2, 1/2⟩).returns.length := by
    rw [hr]; norm_num
  have ht : 1 < (run_backtest [1, 2, 4] [1, 3, 3] [1, 1, 1] 2
      ⟨100, 1/100, 1/2, 2, 1/2⟩).returns.length := by
    rw [hr]; norm_num
  have h := run_backtest_equity_spec [1, 2, 4] [1, 3, 3] [1, 1, 1] 2
    ⟨100, 1/100, 1/2, 2, 1/2⟩ 1 h0 ht
  refine ⟨h.1, h.2.1, ?_⟩
  have hd := h.2.2 (by rw [hr]; simp)
  rw [hd, hr]
  norm_num [List.filterMap_cons, List.filterMap_nil, List.prod_cons,
    List.prod_nil]

/-! ## C8: an all-flat signal sequence -/

theorem align_rows_fst_mem (sigs : List ℚ) (ras rbs : List (Option ℚ))
    (r : ℚ × ℚ × ℚ) (hr : r ∈ align_rows sigs ras rbs) : r.1 ∈ sigs := by
  obtain ⟨x, hx, hfx⟩ := List.mem_filterMap.mp hr
  obtain ⟨s, o1, o2⟩ := x
  have hs : s ∈ sigs := (List.of_mem_zip hx).1
  cases o1 with
  | none => exact absurd hfx (by simp)
  | some va =>
    cases o2 with
    | none => exact absurd hfx (by simp)
    | some vb =>
      simp only [Option.some.injEq] at hfx
      rw [← hfx]
      exact hs

theorem alignedRow_fst_zero (pa pb sigs : List ℚ) (i : ℕ)
    (hs : ∀ s ∈ sigs, s = 0)
    (hi : i < (align_rows sigs (pct_change pa) (pct_change pb)).length) :
    (alignedRow pa pb sigs i).1 = 0 := by
  have hmem : (align_rows sigs (pct_change pa) (pct_change pb)).getD i (0, 0, 0)
      ∈ align_rows sigs (pct_change pa) (pct_change pb) := by
    rw [List.getD_eq_getElem _ _ hi]
    exact List.getElem_mem _
  exact hs _ (align_rows_fst_mem _ _ _ _ hmem)

theorem prod_one_of_all_zero (l : List (Option ℚ))
    (hl : ∀ i, i < l.length → l.getD i none = none ∨ l.getD i none = some 0)
    (n : ℕ) :
    (((l.take n).filterMap id).map (fun r => 1 + r)).prod = 1 := by
  induction l generalizing n with
  | nil => simp
  | cons x xs ih =>
    cases n with
    | zero => simp
    | succ m =>
      have hx : x = none ∨ x = some 0 := by
        have := hl 0 (by simp)
        simpa using this
      have hxs : ∀ i, i < xs.length →
          xs.getD i none = none ∨ xs.getD i none = some 0 := by
        intro i hi
        have := hl (i + 1) (by simpa using Nat.succ_lt_succ hi)
        simpa using this
      rcases hx with hx | hx <;>
        simp [hx, List.take_succ_cons, List.filterMap_cons, ih hxs m]

/-- C8 (amended): when every signal is 0, every equity value from aligned
position 1 onwards equals `initial_capital`, the portfolio return and the
transaction cost are 0 at every such position — but the FIRST aligned entry
of the equity curve is NaN, not `initial_capital`. -/
theorem run_backtest_flat_spec (pa pb sigs : List ℚ) (hedge : ℚ)
    (cfg : BacktesterConfig) (t : ℕ)
    (hs : ∀ s ∈ sigs, s = 0) (ht : 1 ≤ t)
    (htl : t < (run_backtest pa pb sigs hedge cfg).returns.length) :
    (run_backtest pa pb sigs hedge cfg).equity.getD t none =
      some cfg.initial_capital
    ∧ (run_backtest pa pb sigs hedge cfg).returns.getD t none = some 0
    ∧ (transaction_costs
        ((align_rows sigs (pct_change pa) (pct_change pb)).map (fun r => r.1))
        cfg.transaction_cost).getD t none = some 0
    ∧ (run_backtest pa pb sigs hedge cfg).equity.getD 0 none = none := by
  have hrows : ∀ i, i < (run_backtest pa pb sigs hedge cfg).returns.length →
      i < (align_rows sigs (pct_change pa) (pct_change pb)).length := by
    intro i hi
    rw [← run_backtest_returns_length pa pb sigs hedge cfg]; exact hi
  have hret : ∀ u, u + 1 < (run_backtest pa pb sigs hedge cfg).returns.length →
      (run_backtest pa pb sigs hedge cfg).returns.getD (u + 1) none = some 0 := by
    intro u hu
    rw [run_backtest_returns_getD pa pb sigs hedge cfg u
        (hrows (u + 1) hu),
      alignedRow_fst_zero pa pb sigs u hs
        (Nat.lt_of_succ_lt (hrows (u + 1) hu)),
      alignedRow_fst_zero pa pb sigs (u + 1) hs (hrows (u + 1) hu)]
    norm_num
  have hall : ∀ i, i < (run_backtest pa pb sigs hedge cfg).returns.length →
      (run_backtest pa pb sigs hedge cfg).returns.getD i none = none ∨
        (run_backtest pa pb sigs hedge cfg).returns.getD i none = some 0 := by
    intro i hi
    cases i with
    | zero => exact Or.inl (run_backtest_returns_getD_zero pa pb sigs hedge cfg)
    | succ u => exact Or.inr (hret u hi)
  obtain ⟨u, rfl⟩ : ∃ u, t = u + 1 := ⟨t - 1, by omega⟩
  have hallpad : ∀ i, i < (run_backtest pa pb sigs hedge cfg).returns.length →
      (run_backtest pa pb sigs hedge cfg).returns.getD i none = none ∨
        (run_backtest pa pb sigs hedge cfg).returns.getD i none = some 0 := hall
  refine ⟨?_, hret u htl, ?_, ?_⟩
  · rw [run_backtest_equity_getD pa pb sigs hedge cfg (u + 1) htl, hret u htl]
    have hprod := prod_one_of_all_zero
      ((run_backtest pa pb sigs hedge cfg).returns)
      (by
        intro i hi
        by_cases hlt : i < (run_backtest pa pb sigs hedge cfg).returns.length
        · exact hallpad i hlt
        · exact Or.inl (List.getD_eq_default _ _ (by omega)))
      (u + 1 + 1)
    rw [Option.map_some', hprod, mul_one]
  · have hsl : u + 1 <
        ((align_rows sigs (pct_change pa) (pct_change pb)).map
          (fun r => r.1)).length := by
      rw [List.length_map]; exact hrows (u + 1) htl
    rw [transaction_costs_getD _ _ u hsl,
      getD_map_of_lt _ _ (u + 1) 0 (0, 0, 0) (hrows (u + 1) htl),
      getD_map_of_lt _ _ u 0 (0, 0, 0) (Nat.lt_of_succ_lt (hrows (u + 1) htl))]
    have h1 := alignedRow_fst_zero pa pb sigs (u + 1) hs (hrows (u + 1) htl)
    have h2 := alignedRow_fst_zero pa pb sigs u hs
      (Nat.lt_of_succ_lt (hrows (u + 1) htl))
    rw [alignedRow] at h1 h2
    rw [h1, h2]
    norm_num
  · rw [run_backtest_equity_getD pa pb sigs hedge cfg 0 (by omega),
      run_backtest_returns_getD_zero pa pb sigs hedge cfg]
    rfl

/-- Closed witness for `run_backtest_flat_spec`: all-zero signals over three
prices give equity 100 at the defined period, zero return and zero cost. -/
theorem run_backtest_flat_spec_witness :
    (run_backtest [1, 2, 3] [2, 3, 4] [0, 0, 0] 1
        ⟨100, 1/100, 1/2, 2, 1/2⟩).equity.getD 1 none = some 100
    ∧ (run_backtest [1, 2, 3] [2, 3, 4] [0, 0, 0] 1
        ⟨100, 1/100, 1/2, 2, 1/2⟩).returns.getD 1 none = some 0
    ∧ (run_backtest [1, 2, 3] [2, 3, 4] [0, 0, 0] 1
        ⟨100, 1/100, 1/2, 2, 1/2⟩).equity.getD 0 none = none := by
  have hrows : align_rows [0, 0, 0] (pct_change [1, 2, 3]) (pct_change [2, 3, 4])
      = [(0, 1, 1/2), (0, 1/2, 1/3)] := by
    norm_num [align_rows, pct_change, pct_change_from]
    rfl
  have hlen : 1 < (run_backtest [1, 2, 3] [2, 3, 4] [0, 0, 0] 1
      ⟨100, 1/100, 1/2, 2, 1/2⟩).returns.length := by
    rw [run_backtest_returns_length, hrows]
    norm_num
  have h := run_backtest_flat_spec [1, 2, 3] [2, 3, 4] [0, 0, 0] 1
    ⟨100, 1/100, 1/2, 2, 1/2⟩ 1 (by norm_num) (by norm_num) hlen
  exact ⟨h.1, h.2.1, h.2.2.2⟩

/-- C8 (counterexample to the claim as stated): with all-zero signals the
equity curve is `[NaN, 100]`, so not every element equals the initial
capital. -/
theorem run_backtest_flat_counterexample :
    ¬ (∀ x ∈ (run_backtest [1, 2, 3] [2, 3, 4] [0, 0, 0] 1
        ⟨100, 1/100, 1/2, 2, 1/2⟩).equity, x = some (100 : ℚ)) := by
  have hrows : align_rows [0, 0, 0] (pct_change [1, 2, 3]) (pct_change [2, 3, 4])
      = [(0, 1, 1/2), (0, 1/2, 1/3)] := by
    norm_num [align_rows, pct_change, pct_change_from]
    rfl
  have heq : (run_backtest [1, 2, 3] [2, 3, 4] [0, 0, 0] 1
      ⟨100, 1/100, 1/2, 2, 1/2⟩).equity = [none, some 100] := by
    simp only [run_backtest, hrows]
    norm_num [shift1, shift1_from, diff1, diff1_from, omul, oadd, osub,
      transaction_costs, cumprod, cumprod_from]
  intro hall
  have := hall none (by rw [heq]; simp)
  simp at this

/-! ## C5: the rolling z-score -/

theorem getD_range_map {β : Type _} (f : ℕ → β) (n t : ℕ) (d : β) (h : t < n) :
    ((List.range n).map f).getD t d = f t := by
  rw [getD_map_of_lt f _ t d 0 (by simpa using h),
    List.getD_eq_getElem _ _ (by simpa using h), List.getElem_range]

theorem window_length (L : ℕ) (spread : List ℚ) (t : ℕ) (h1 : L ≤ t + 1)
    (h2 : t < spread.length) : (window L spread t).length = L := by
  simp [window, List.length_drop, List.length_take]
  omega

theorem getD_mem_window (L : ℕ) (spread : List ℚ) (t : ℕ) (hL : 1 ≤ L)
    (h1 : L ≤ t + 1) (h2 : t < spread.length) :
    spread.getD t 0 ∈ window L spread t := by
  have hwl : (window L spread t).length = L := window_length L spread t h1 h2
  rw [List.mem_iff_getElem]
  refine ⟨L - 1, by omega, ?_⟩
  rw [List.getD_eq_getElem _ _ h2]
  simp only [window, List.getElem_drop, List.getElem_take]
  congr 1
  omega

theorem wvar_nonneg (w : List ℚ) : 0 ≤ wvar w := by
  apply div_nonneg
  · apply List.sum_nonneg
    intro x hx
    obtain ⟨y, -, rfl⟩ := List.mem_map.mp hx
    positivity
  · positivity

theorem list_sum_nonneg_eq_zero (l : List ℚ) (hnn : ∀ x ∈ l, 0 ≤ x)
    (hs : l.sum = 0) : ∀ x ∈ l, x = 0 := by
  induction l with
  | nil => simp
  | cons a l ih =>
    have ha : 0 ≤ a := hnn a (by simp)
    have hl : 0 ≤ l.sum := List.sum_nonneg (fun x hx => hnn x (by simp [hx]))
    rw [List.sum_cons] at hs
    intro x hx
    rcases List.mem_cons.mp hx with rfl | hx
    · linarith
    · exact ih (fun y hy => hnn y (by simp [hy])) (by linarith) x hx

theorem eq_wmean_of_wvar_eq_zero (w : List ℚ) (hw : w ≠ [])
    (hv : wvar w = 0) : ∀ x ∈ w, x = wmean w := by
  rcases Nat.lt_or_ge w.length 2 with h2 | h2
  · have h1 : w.length = 1 := by
      cases w with
      | nil => simp at hw
      | cons a l =>
        simp only [List.length_cons] at h2 ⊢
        omega
    obtain ⟨a, rfl⟩ := List.length_eq_one.mp h1
    intro x hx
    simp only [List.mem_singleton] at hx
    subst hx
    simp [wmean]
  · have hd : ((w.length - 1 : ℕ) : ℚ) ≠ 0 := by
      have : 1 ≤ w.length - 1 := by omega
      exact_mod_cast Nat.pos_iff_ne_zero.mp this
    have hsum : (w.map (fun x => (x - wmean w) ^ 2)).sum = 0 := by
      rw [wvar, div_eq_zero_iff] at hv
      tauto
    intro x hx
    have hterm : (x - wmean w) ^ 2 = 0 := by
      refine list_sum_nonneg_eq_zero _ ?_ hsum _ (List.mem_map_of_mem _ hx)
      intro y hy
      obtain ⟨z, -, rfl⟩ := List.mem_map.mp hy
      positivity
    have h20 : (2 : ℕ) ≠ 0 := by norm_num
    have := (pow_eq_zero_iff h20).mp hterm
    linarith [this]

theorem fsqrt_of_nonneg (v : ℚ) (h : 0 ≤ v) :
    fsqrt v = FVal.fin (Real.sqrt (v : ℝ)) := by
  simp [fsqrt, not_lt.mpr h]

theorem fdiv_fin_fin_of_ne (a b : ℝ) (hb : b ≠ 0) :
    fdiv (FVal.fin a) (FVal.fin b) = FVal.fin (a / b) := by
  simp [fdiv, hb]

/-- C5: the z-score series is NaN (Undefined) at exactly the first `L − 1`
positions of a spread of length ≥ L; at every later position it is NaN when
the trailing window's `n−1` sample variance is exactly zero (never `±∞`),
and otherwise equals the deviation of the spread from the trailing window's
mean divided by the sample standard deviation; the trailing window holds
exactly `L` observations. -/
theorem calculate_zscore_spec (spread : List ℚ) (L t : ℕ)
    (hL : 1 ≤ L) (hlen : L ≤ spread.length) (ht : t < spread.length) :
    ((calculate_zscore L spread).getD t FVal.nan =
      if t + 1 < L then FVal.nan
      else if wvar (window L spread t) = 0 then FVal.nan
      else FVal.fin (((spread.getD t 0 - wmean (window L spread t) : ℚ) : ℝ) /
        Real.sqrt ((wvar (window L spread t) : ℚ) : ℝ)))
    ∧ (L ≤ t + 1 → (window L spread t).length = L)
    ∧ (calculate_zscore L spread).getD t FVal.nan ≠ FVal.posInf
    ∧ (calculate_zscore L spread).getD t FVal.nan ≠ FVal.negInf := by
  have hget : (calculate_zscore L spread).getD t FVal.nan =
      if t + 1 < L then FVal.nan
      else fdiv (FVal.fin ((spread.getD t 0 - wmean (window L spread t) : ℚ) : ℝ))
        (fsqrt (wvar (window L spread t))) := by
    rw [calculate_zscore, getD_range_map _ _ _ _ ht]
  have hmain : (calculate_zscore L spread).getD t FVal.nan =
      if t + 1 < L then FVal.nan
      else if wvar (window L spread t) = 0 then FVal.nan
      else FVal.fin (((spread.getD t 0 - wmean (window L spread t) : ℚ) : ℝ) /
        Real.sqrt ((wvar (window L spread t) : ℚ) : ℝ)) := by
    rw [hget]
    by_cases hc : t + 1 < L
    · rw [if_pos hc, if_pos hc]
    · rw [if_neg hc, if_neg hc]
      have hLt : L ≤ t + 1 := by omega
      have hvnn : 0 ≤ wvar (window L spread t) := wvar_nonneg _
      by_cases hv : wvar (window L spread t) = 0
      · rw [if_pos hv]
        have hwne : window L spread t ≠ [] := by
          have hwlen := window_length L spread t hLt ht
          intro hnil
          rw [hnil] at hwlen
          simp at hwlen
          omega
        have hx : spread.getD t 0 = wmean (window L spread t) :=
          eq_wmean_of_wvar_eq_zero _ hwne hv _ (getD_mem_window L spread t hL hLt ht)
        rw [hx, hv, fsqrt_of_nonneg 0 le_rfl]
        simp [fdiv, Real.sqrt_zero]
      · rw [if_neg hv]
        have hvpos : 0 < wvar (window L spread t) := lt_of_le_of_ne hvnn (Ne.symm hv)
        have hvr : (0 : ℝ) < ((wvar (window L spread t) : ℚ) : ℝ) := by
          exact_mod_cast hvpos
        rw [fsqrt_of_nonneg _ hvnn,
          fdiv_fin_fin_of_ne _ _ (ne_of_gt (Real.sqrt_pos.mpr hvr))]
  refine ⟨hmain, fun h => window_length L spread t h ht, ?_, ?_⟩
  · rw [hmain]; split_ifs <;> simp
  · rw [hmain]; split_ifs <;> simp

/-- Closed witness for `calculate_zscore_spec`: a constant spread of length 3
with lookback 2 — position 2 has a full two-observation window of zero
variance, so its z-score is NaN, not an infinity. -/
theorem calculate_zscore_spec_witness :
    (calculate_zscore 2 [0, 0, 0]).getD 2 FVal.nan = FVal.nan
    ∧ (window 2 [0, 0, 0] 2).length = 2
    ∧ (calculate_zscore 2 [0, 0, 0]).getD 2 FVal.nan ≠ FVal.posInf := by
  have h := calculate_zscore_spec [0, 0, 0] 2 2 (by norm_num) (by norm_num)
    (by norm_num)
  refine ⟨?_, h.2.1 (by norm_num), h.2.2.1⟩
  rw [h.1, if_neg (by norm_num), if_pos ?hv]
  case hv => norm_num [window, wmean, wvar]

/-! ## C9: the full pipeline is deterministic -/

/-- C9: the full pipeline — hedge estimation, spread, z-score, signals,
backtest and performance metrics — is a pure function of its inputs and
configuration: running it twice on identical inputs yields identical
results, in particular identical equity curves, return series, trade lists,
signal sequences and metric records. There is no dependence on randomness or
time. -/
theorem run_pipeline_deterministic (pa pb pa' pb' : List ℚ)
    (scfg : StrategyConfig) (bcfg : BacktesterConfig)
    (ha : pa = pa') (hb : pb = pb') :
    run_pipeline pa pb scfg bcfg = run_pipeline pa' pb' scfg bcfg
    ∧ (run_pipeline pa pb scfg bcfg).backtest.equity =
        (run_pipeline pa' pb' scfg bcfg).backtest.equity
    ∧ (run_pipeline pa pb scfg bcfg).backtest.returns =
        (run_pipeline pa' pb' scfg bcfg).backtest.returns
    ∧ (run_pipeline pa pb scfg bcfg).backtest.trades =
        (run_pipeline pa' pb' scfg bcfg).backtest.trades
    ∧ (run_pipeline pa pb scfg bcfg).signals =
        (run_pipeline pa' pb' scfg bcfg).signals
    ∧ (run_pipeline pa pb scfg bcfg).metrics =
        (run_pipeline pa' pb' scfg bcfg).metrics := by
  subst ha
  subst hb
  exact ⟨rfl, rfl, rfl, rfl, rfl, rfl⟩

/-- Closed witness for `run_pipeline_deterministic` at a concrete input. -/
theorem run_pipeline_deterministic_witness :
    run_pipeline [1, 2] [2, 3] ⟨60, 2, 1/2⟩ ⟨100, 1/100, 1/2, 2, 1/2⟩ =
      run_pipeline [1, 2] [2, 3] ⟨60, 2, 1/2⟩ ⟨100, 1/100, 1/2, 2, 1/2⟩ :=
  (run_pipeline_deterministic [1, 2] [2, 3] [1, 2] [2, 3]
    ⟨60, 2, 1/2⟩ ⟨100, 1/100, 1/2, 2, 1/2⟩ rfl rfl).1

end PairsTrading
